import Mathlib

/-!
Verification development for the fa-2-iconify converter.

The repository converts a FontAwesome kit (JSON metadata plus per-style SVG
files) into Iconify icon-set documents.  This file embeds the core pipeline
as executable Lean definitions, translated from the TypeScript sources:

* `src/utils/svg.ts`            — `parseSvgFile`, `extractBodyFromRawSvg`,
                                  `buildSvgBody`, `formatViewBox`
* `src/services/kitParserService.ts` — `parseKit` (per-icon reconciliation,
                                  embedded here as `processIconPair`)
* `src/services/databaseService.ts`  — `initDatabase`, `insertIcon`,
                                  `getIconsByStyle`, `searchIcons`
* `index.ts` (monolith)         — `generatePackage`

JavaScript numbers are modelled by `JsNum` (`NaN`, signed infinity, or an
exact rational).  Double-precision rounding of decimal literals and overflow
to infinity for astronomically large literals are not modelled; no claim
depends on them.  Strings are Lean `String`s operated on as `List Char`.
-/

/-! ## JavaScript string primitives -/

/-- Whitespace as used by JavaScript `String.prototype.trim`, `parseFloat`
and the `\s` regex class (common members). -/
def jsWhitespace (c : Char) : Bool :=
  c = ' ' || c = '\t' || c = '\n' || c = '\r' ||
  c.toNat = 11 || c.toNat = 12 || c.toNat = 160 ||
  c.toNat = 0x2028 || c.toNat = 0x2029 || c.toNat = 0xFEFF

/-- JavaScript `String.prototype.trim`. -/
def jsTrim (s : String) : String :=
  String.mk (((s.data.dropWhile jsWhitespace).reverse.dropWhile jsWhitespace).reverse)

/-- ASCII lower-casing, as performed by the `i` regex flag and SQLite `LIKE`
on ASCII letters. -/
def lowerChar (c : Char) : Char :=
  if 'A' ≤ c ∧ c ≤ 'Z' then Char.ofNat (c.toNat + 32) else c

/-- ASCII upper-casing of a single character (`charAt(0).toUpperCase()`). -/
def upperChar (c : Char) : Char :=
  if 'a' ≤ c ∧ c ≤ 'z' then Char.ofNat (c.toNat - 32) else c

/-! ## JavaScript numbers -/

/-- A JavaScript number: `NaN`, a signed infinity, or a finite value
(modelled as an exact rational). -/
inductive JsNum where
  | nan : JsNum
  | inf (neg : Bool) : JsNum
  | num (val : ℚ) : JsNum
deriving DecidableEq, Repr

/-- Value of a list of decimal digit characters. -/
def digitsVal (l : List Char) : ℕ :=
  l.foldl (fun a c => a * 10 + (c.toNat - 48)) 0

/-- Exponent tail of a decimal literal (after the `e`/`E`). -/
def expTail (r : List Char) : ℤ :=
  let eneg : Bool := match r with | '-' :: _ => true | _ => false
  let r2 := match r with | '+' :: rr => rr | '-' :: rr => rr | _ => r
  let ds := r2.takeWhile Char.isDigit
  if ds.isEmpty then 0
  else if eneg then -(digitsVal ds : ℤ) else (digitsVal ds : ℤ)

/-- Optional exponent part of a decimal literal. -/
def expVal (l : List Char) : ℤ :=
  match l with
  | 'e' :: r => expTail r
  | 'E' :: r => expTail r
  | _ => 0

/-- Exact rational multiplication via `mkRat` (the library's `Rat.mul` is
deliberately irreducible; these explicit normalizing definitions compute the
same values and reduce inside the kernel). -/
def qMul (a b : ℚ) : ℚ := mkRat (a.num * b.num) (a.den * b.den)

/-- Exact rational addition via `mkRat`. -/
def qAdd (a b : ℚ) : ℚ :=
  mkRat (a.num * Int.ofNat b.den + b.num * Int.ofNat a.den) (a.den * b.den)

/-- Exact rational subtraction via `mkRat`. -/
def qSub (a b : ℚ) : ℚ :=
  mkRat (a.num * Int.ofNat b.den - b.num * Int.ofNat a.den) (a.den * b.den)

/-- Exact rational negation via `mkRat`. -/
def qNeg (a : ℚ) : ℚ := mkRat (-a.num) a.den

/-- Exact rational division via `mkRat` (zero divisor yields zero; never
reached by the callers below). -/
def qDiv (a b : ℚ) : ℚ :=
  mkRat (a.num * Int.ofNat b.den * (if b.num < 0 then -1 else 1)) (a.den * b.num.natAbs)

/-- Ten to an integer power, as exact rational arithmetic. -/
def tenPowZ : ℤ → ℚ
  | Int.ofNat n => mkRat (Int.ofNat (10 ^ n)) 1
  | Int.negSucc n => qDiv (mkRat 1 1) (mkRat (Int.ofNat (10 ^ (n + 1))) 1)

/-- JavaScript `Number.parseFloat`: skip leading whitespace, read an optional
sign, then the longest decimal-literal (or `Infinity`) prefix; `NaN` when no
prefix parses.  Trailing garbage (such as a `px` unit suffix) is ignored. -/
def parseFloatJs (l : List Char) : JsNum :=
  let t := l.dropWhile jsWhitespace
  let neg : Bool := match t with | '-' :: _ => true | _ => false
  let t2 := match t with | '+' :: r => r | '-' :: r => r | _ => t
  if List.isPrefixOf "Infinity".data t2 then JsNum.inf neg
  else
    let intDs := t2.takeWhile Char.isDigit
    let rest1 := t2.drop intDs.length
    match rest1 with
    | '.' :: r =>
      let fracDs := r.takeWhile Char.isDigit
      let rest2 := r.drop fracDs.length
      if intDs.isEmpty && fracDs.isEmpty then JsNum.nan
      else
        let mag : ℚ := qMul
          (qAdd (mkRat (Int.ofNat (digitsVal intDs)) 1)
            (qDiv (mkRat (Int.ofNat (digitsVal fracDs)) 1)
              (mkRat (Int.ofNat (10 ^ fracDs.length)) 1)))
          (tenPowZ (expVal rest2))
        JsNum.num (if neg then qNeg mag else mag)
    | _ =>
      if intDs.isEmpty then JsNum.nan
      else
        let mag : ℚ := qMul (mkRat (Int.ofNat (digitsVal intDs)) 1) (tenPowZ (expVal rest1))
        JsNum.num (if neg then qNeg mag else mag)

/-- One decimal digit character. -/
def decDigitChar (n : ℕ) : Char := Char.ofNat (48 + n % 10)

/-- Fractional decimal digits of `q` (with `0 ≤ q < 1`), extracted by long
division; `fuel` bounds the number of digits and is always sufficient for the
terminating expansions produced by decimal literals. -/
def fracDigitsAux : ℕ → ℚ → List Char
  | 0, _ => []
  | fuel + 1, q =>
    if q = 0 then []
    else
      let q10 := qMul q (mkRat 10 1)
      let d := q10.floor
      decDigitChar d.toNat :: fracDigitsAux fuel (qSub q10 (mkRat d 1))

/-- Decimal string of a non-negative rational (JavaScript `Number.prototype.toString`
for finite non-negative values with terminating decimal expansion). -/
def qToStringNonneg (q : ℚ) : String :=
  let ip := q.floor.toNat
  let ds := fracDigitsAux q.den (qSub q (mkRat q.floor 1))
  if ds.isEmpty then toString ip else toString ip ++ "." ++ String.mk ds

/-- Decimal string of a rational (negative values print a leading minus). -/
def qToString (q : ℚ) : String :=
  if q.num < 0 then "-" ++ qToStringNonneg (qNeg q) else qToStringNonneg q

/-- JavaScript number-to-string conversion (template-literal interpolation). -/
def jsNumToString : JsNum → String
  | JsNum.nan => "NaN"
  | JsNum.inf true => "-Infinity"
  | JsNum.inf false => "Infinity"
  | JsNum.num q => qToString q

/-! ## JSON serialization of string lists

`insertIcon` stores `searchTerms` as `JSON.stringify(list)` and the readers
recover it with `JSON.parse(text || '[]')`.  The serializer is modelled
exactly (JSON string escaping as performed by `JSON.stringify`); the parser
models `JSON.parse` on arrays of strings without interleaved whitespace,
which covers every text the serializer can produce.  `JSON.parse` throws on
malformed text; the model returns `none` there, a case unreachable from rows
written by `insertIcon`. -/

/-- Hexadecimal digit character (lower case, as emitted by `JSON.stringify`). -/
def hexDigitChar (n : ℕ) : Char :=
  if n < 10 then Char.ofNat (48 + n) else Char.ofNat (87 + n)

/-- JSON escaping of one character, as performed by `JSON.stringify`. -/
def encodeChar (c : Char) : List Char :=
  if c = '"' then ['\\', '"']
  else if c = '\\' then ['\\', '\\']
  else if c = Char.ofNat 8 then ['\\', 'b']
  else if c = Char.ofNat 9 then ['\\', 't']
  else if c = Char.ofNat 10 then ['\\', 'n']
  else if c = Char.ofNat 12 then ['\\', 'f']
  else if c = Char.ofNat 13 then ['\\', 'r']
  else if c.toNat < 32 then
    ['\\', 'u', '0', '0', hexDigitChar (c.toNat / 16), hexDigitChar (c.toNat % 16)]
  else [c]

/-- JSON escaping of a character list. -/
def encodeBody (l : List Char) : List Char :=
  l.foldr (fun c acc => encodeChar c ++ acc) []

/-- A JSON string literal for `s`. -/
def encodeStringChars (s : String) : List Char :=
  '"' :: encodeBody s.data ++ ['"']

/-- Comma-separated JSON string literals. -/
def encodeTermsChars : List String → List Char
  | [] => []
  | [s] => encodeStringChars s
  | s :: l => encodeStringChars s ++ ',' :: encodeTermsChars l

/-- `JSON.stringify` on a list of strings. -/
def jsonStringify (l : List String) : String :=
  String.mk ('[' :: encodeTermsChars l ++ [']'])

/-- Value of a hexadecimal digit character. -/
def hexVal (c : Char) : Option ℕ :=
  if '0' ≤ c ∧ c ≤ '9' then some (c.toNat - 48)
  else if 'a' ≤ c ∧ c ≤ 'f' then some (c.toNat - 87)
  else if 'A' ≤ c ∧ c ≤ 'F' then some (c.toNat - 55)
  else none

/-- Parse the body of a JSON string literal (after the opening quote); returns
the decoded characters and the remainder after the closing quote. -/
def parseStringBody : List Char → Option (List Char × List Char)
  | [] => none
  | c :: rest =>
    if c = '"' then some ([], rest)
    else if c = '\\' then
      match rest with
      | [] => none
      | e :: rest2 =>
        if e = '"' then (parseStringBody rest2).map (fun p => ('"' :: p.1, p.2))
        else if e = '\\' then (parseStringBody rest2).map (fun p => ('\\' :: p.1, p.2))
        else if e = '/' then (parseStringBody rest2).map (fun p => ('/' :: p.1, p.2))
        else if e = 'b' then (parseStringBody rest2).map (fun p => (Char.ofNat 8 :: p.1, p.2))
        else if e = 't' then (parseStringBody rest2).map (fun p => (Char.ofNat 9 :: p.1, p.2))
        else if e = 'n' then (parseStringBody rest2).map (fun p => (Char.ofNat 10 :: p.1, p.2))
        else if e = 'f' then (parseStringBody rest2).map (fun p => (Char.ofNat 12 :: p.1, p.2))
        else if e = 'r' then (parseStringBody rest2).map (fun p => (Char.ofNat 13 :: p.1, p.2))
        else if e = 'u' then
          match rest2 with
          | h1 :: h2 :: h3 :: h4 :: rest3 =>
            match hexVal h1, hexVal h2, hexVal h3, hexVal h4 with
            | some a, some b, some c2, some d =>
              let code := a * 4096 + b * 256 + c2 * 16 + d
              if Nat.isValidChar code then
                (parseStringBody rest3).map (fun p => (Char.ofNat code :: p.1, p.2))
              else none
            | _, _, _, _ => none
          | _ => none
        else none
    else (parseStringBody rest).map (fun p => (c :: p.1, p.2))

/-- Parse a JSON string literal. -/
def parseJsonString (l : List Char) : Option (List Char × List Char) :=
  match l with
  | '"' :: r => parseStringBody r
  | _ => none

/-- Parse the items of a non-empty JSON array of strings, consuming the
closing bracket; `fuel` bounds the number of items. -/
def parseItemsF : ℕ → List Char → Option (List String)
  | 0, _ => none
  | fuel + 1, l =>
    match parseJsonString l with
    | none => none
    | some (s, r) =>
      match r with
      | ']' :: r2 => if r2.isEmpty then some [String.mk s] else none
      | ',' :: r2 => (parseItemsF fuel r2).map (fun t => String.mk s :: t)
      | _ => none

/-- `JSON.parse` on a serialized list of strings. -/
def jsonParseTerms (s : String) : Option (List String) :=
  match s.data with
  | '[' :: ']' :: rest => if rest.isEmpty then some [] else none
  | '[' :: rest => parseItemsF rest.length rest
  | _ => none

/-! ### Round-trip of the JSON serialization -/

theorem mk_data (s : String) : String.mk s.data = s := by
  cases s
  rfl

theorem hexVal_hexDigitChar (n : ℕ) (h : n < 16) : hexVal (hexDigitChar n) = some n := by
  interval_cases n <;> decide

theorem hexVal_zero : hexVal '0' = some 0 := by decide

theorem parseStringBody_unicode (a b : ℕ) (ha : a < 16) (hb : b < 16)
    (hv : Nat.isValidChar (a * 16 + b)) (rest : List Char) :
    parseStringBody ('\\' :: 'u' :: '0' :: '0' :: hexDigitChar a :: hexDigitChar b :: rest) =
      (parseStringBody rest).map (fun p => (Char.ofNat (a * 16 + b) :: p.1, p.2)) := by
  rw [parseStringBody.eq_def]
  simp [hexVal_zero, hexVal_hexDigitChar _ ha, hexVal_hexDigitChar _ hb, hv]

theorem parseStringBody_encodeChar (c : Char) (rest : List Char) :
    parseStringBody (encodeChar c ++ rest) =
      (parseStringBody rest).map (fun p => (c :: p.1, p.2)) := by
  by_cases h1 : c = '"'
  · subst h1
    rw [show encodeChar '"' = ['\\', '"'] from by decide, List.cons_append, List.cons_append,
      List.nil_append, parseStringBody.eq_def]
    simp
  by_cases h2 : c = '\\'
  · subst h2
    rw [show encodeChar '\\' = ['\\', '\\'] from by decide, List.cons_append, List.cons_append,
      List.nil_append, parseStringBody.eq_def]
    simp
  by_cases h3 : c = Char.ofNat 8
  · subst h3
    rw [show encodeChar (Char.ofNat 8) = ['\\', 'b'] from by decide, List.cons_append,
      List.cons_append, List.nil_append, parseStringBody.eq_def]
    simp
  by_cases h4 : c = Char.ofNat 9
  · subst h4
    rw [show encodeChar (Char.ofNat 9) = ['\\', 't'] from by decide, List.cons_append,
      List.cons_append, List.nil_append, parseStringBody.eq_def]
    simp
  by_cases h5 : c = Char.ofNat 10
  · subst h5
    rw [show encodeChar (Char.ofNat 10) = ['\\', 'n'] from by decide, List.cons_append,
      List.cons_append, List.nil_append, parseStringBody.eq_def]
    simp
  by_cases h6 : c = Char.ofNat 12
  · subst h6
    rw [show encodeChar (Char.ofNat 12) = ['\\', 'f'] from by decide, List.cons_append,
      List.cons_append, List.nil_append, parseStringBody.eq_def]
    simp
  by_cases h7 : c = Char.ofNat 13
  · subst h7
    rw [show encodeChar (Char.ofNat 13) = ['\\', 'r'] from by decide, List.cons_append,
      List.cons_append, List.nil_append, parseStringBody.eq_def]
    simp
  by_cases h8 : c.toNat < 32
  · have hdiv : c.toNat / 16 < 16 := by omega
    have hmod : c.toNat % 16 < 16 := Nat.mod_lt _ (by norm_num)
    have hvalid : Nat.isValidChar (c.toNat / 16 * 16 + c.toNat % 16) := by
      left
      omega
    have harith : c.toNat / 16 * 16 + c.toNat % 16 = c.toNat := by omega
    have henc : encodeChar c =
        ['\\', 'u', '0', '0', hexDigitChar (c.toNat / 16), hexDigitChar (c.toNat % 16)] := by
      unfold encodeChar
      rw [if_neg h1, if_neg h2, if_neg h3, if_neg h4, if_neg h5, if_neg h6, if_neg h7,
        if_pos h8]
    rw [henc]
    rw [show (['\\', 'u', '0', '0', hexDigitChar (c.toNat / 16), hexDigitChar (c.toNat % 16)]
      ++ rest) = '\\' :: 'u' :: '0' :: '0' :: hexDigitChar (c.toNat / 16) ::
        hexDigitChar (c.toNat % 16) :: rest from by simp]
    rw [parseStringBody_unicode _ _ hdiv hmod hvalid]
    simp only [harith, Char.ofNat_toNat]
  · have henc : encodeChar c = [c] := by
      unfold encodeChar
      rw [if_neg h1, if_neg h2, if_neg h3, if_neg h4, if_neg h5, if_neg h6, if_neg h7,
        if_neg h8]
    rw [henc, List.cons_append, List.nil_append, parseStringBody.eq_def]
    simp [h1, h2]

theorem parseStringBody_encodeBody (chars rest : List Char) :
    parseStringBody (encodeBody chars ++ '"' :: rest) = some (chars, rest) := by
  induction chars with
  | nil =>
    rw [show encodeBody [] = [] from rfl, List.nil_append, parseStringBody.eq_def]
    simp
  | cons c cs ih =>
    rw [show encodeBody (c :: cs) = encodeChar c ++ encodeBody cs from rfl,
      List.append_assoc, parseStringBody_encodeChar, ih]
    rfl

theorem parseJsonString_encodeStringChars (s : String) (rest : List Char) :
    parseJsonString (encodeStringChars s ++ rest) = some (s.data, rest) := by
  have h : encodeStringChars s ++ rest = '"' :: (encodeBody s.data ++ ('"' :: rest)) := by
    simp [encodeStringChars]
  rw [h, parseJsonString.eq_def]
  simp [parseStringBody_encodeBody]

theorem parseItemsF_encode (l : List String) (s : String) (fuel : ℕ) (hf : l.length < fuel) :
    parseItemsF fuel (encodeTermsChars (s :: l) ++ [']']) = some (s :: l) := by
  induction l generalizing s fuel with
  | nil =>
    obtain ⟨f, rfl⟩ : ∃ f, fuel = f + 1 := ⟨fuel - 1, by omega⟩
    rw [show encodeTermsChars [s] = encodeStringChars s from rfl, parseItemsF.eq_def]
    simp [parseJsonString_encodeStringChars, mk_data]
  | cons t l ih =>
    obtain ⟨f, rfl⟩ : ∃ f, fuel = f + 1 := ⟨fuel - 1, by omega⟩
    have hstep : encodeTermsChars (s :: t :: l) ++ [']'] =
        encodeStringChars s ++ (',' :: (encodeTermsChars (t :: l) ++ [']'])) := by
      rw [show encodeTermsChars (s :: t :: l) =
        encodeStringChars s ++ ',' :: encodeTermsChars (t :: l) from rfl]
      simp
    rw [hstep, parseItemsF.eq_def]
    have hrec := ih t f (by simpa using Nat.lt_of_succ_lt_succ hf)
    simp [parseJsonString_encodeStringChars, hrec, mk_data]

theorem encodeTermsChars_head (s : String) (l : List String) :
    ∃ x, encodeTermsChars (s :: l) = '"' :: x := by
  cases l with
  | nil => exact ⟨encodeBody s.data ++ ['"'], rfl⟩
  | cons t l => exact ⟨(encodeBody s.data ++ ['"']) ++ ',' :: encodeTermsChars (t :: l), rfl⟩

theorem length_encodeTermsChars (s : String) (l : List String) :
    l.length + 1 ≤ (encodeTermsChars (s :: l)).length := by
  induction l generalizing s with
  | nil =>
    rw [show encodeTermsChars [s] = encodeStringChars s from rfl]
    simp only [encodeStringChars, List.length_cons, List.length_append, List.length_nil]
    omega
  | cons t l ih =>
    rw [show encodeTermsChars (s :: t :: l) =
      encodeStringChars s ++ ',' :: encodeTermsChars (t :: l) from rfl]
    have h2 := ih t
    simp only [List.length_append, List.length_cons]
    omega

/-- Round-trip: `JSON.parse ∘ JSON.stringify` is the identity on string lists. -/
theorem json_roundtrip (l : List String) : jsonParseTerms (jsonStringify l) = some l := by
  cases l with
  | nil => decide
  | cons s l =>
    obtain ⟨x, hx⟩ := encodeTermsChars_head s l
    have hlen : l.length + 1 ≤ (encodeTermsChars (s :: l)).length := length_encodeTermsChars s l
    have hdata : (jsonStringify (s :: l)).data =
        '[' :: (encodeTermsChars (s :: l) ++ [']']) := by
      simp [jsonStringify]
    rw [jsonParseTerms.eq_def, hdata, hx]
    simp only [List.cons_append]
    have hgoal : parseItemsF ('"' :: (x ++ [']'])).length ('"' :: (x ++ [']'])) =
        some (s :: l) := by
      rw [show ('"' :: (x ++ [']'])) = ('"' :: x) ++ [']'] from by simp, ← hx]
      apply parseItemsF_encode
      simp only [List.length_append, List.length_cons, List.length_nil]
      omega
    simpa using hgoal

/-! ## Regex-model scanners

The SVG helpers use three regular expressions on the whole document text:
`/viewBox="([^"]+)"/` (and the analogous `width=`/`height=` captures) and
`/<svg[^>]*>([\s\S]*?)<\/svg>/i`.  They are modelled as first-match scanners
over the character list, reproducing the left-to-right search with
per-position backtracking of the JavaScript regex engine. -/

/-- First-match scanner for `/pre([^"]+)"/` where `pre` is a literal prefix:
at each position, if `pre` matches and is followed by at least one non-quote
character and eventually a closing quote, capture the characters up to that
quote; otherwise resume the search one position further. -/
def attrCaptureGo (pre : List Char) : List Char → Option (List Char)
  | [] => none
  | c :: rest =>
    let attempt : Option (List Char) :=
      if pre.isPrefixOf (c :: rest) then
        let after := (c :: rest).drop pre.length
        let cap := after.takeWhile (fun d => d ≠ '"')
        if !cap.isEmpty && after.contains '"' then some cap else none
      else none
    match attempt with
    | some r => some r
    | none => attrCaptureGo pre rest

/-- Capture of `/attr="([^"]+)"/` over the document text. -/
def attrCapture (attr : String) (content : List Char) : Option (List Char) :=
  attrCaptureGo (attr.data ++ ['=', '"']) content

/-- Case-insensitive literal-prefix test (the pattern is given lower-case). -/
def ciAtStart (pat l : List Char) : Bool :=
  pat == (l.take pat.length).map lowerChar

/-- Characters before the first case-insensitive occurrence of `pat`;
`none` if `pat` does not occur. -/
def takeUntilCI (pat : List Char) : List Char → Option (List Char)
  | [] => none
  | c :: rest =>
    if ciAtStart pat (c :: rest) then some []
    else (takeUntilCI pat rest).map (fun t => c :: t)

/-- Capture of `/<svg[^>]*>([\s\S]*?)<\/svg>/i`: find the first
case-insensitive `<svg`, skip greedily to the next `>`, then capture lazily
up to the first case-insensitive `</svg>`.  (When this first attempt fails,
no later start position can succeed, so the single attempt is exhaustive.) -/
def svgBodyCapture : List Char → Option (List Char)
  | [] => none
  | c :: rest =>
    if ciAtStart "<svg".data (c :: rest) then
      let after := (c :: rest).drop 4
      let tail2 := after.dropWhile (fun d => d ≠ '>')
      match tail2 with
      | '>' :: r => takeUntilCI "</svg>".data r
      | _ => none
    else svgBodyCapture rest

/-- JavaScript `value.split(/[\s,]+/)` (split on runs of whitespace/commas,
keeping leading/trailing empty pieces exactly as `String.prototype.split`).
Every step shortens the character list by at least one while spending one
unit of fuel, so fuel equal to the initial length never runs out. -/
def splitSepsGo : ℕ → List Char → List Char → List (List Char)
  | _, [], acc => [acc.reverse]
  | 0, _ :: _, acc => [acc.reverse]
  | fuel + 1, c :: rest, acc =>
    if jsWhitespace c || c = ',' then
      acc.reverse :: splitSepsGo fuel (rest.dropWhile (fun d => jsWhitespace d || d = ',')) []
    else splitSepsGo fuel rest (c :: acc)

/-- Split a character list on runs of `[\s,]+`. -/
def splitSeps (l : List Char) : List (List Char) :=
  splitSepsGo l.length l []

/-! ## SVG normalizer (`src/utils/svg.ts`) -/

/-- `parseNumericAttribute` from `parseSvgFile`: `Number.parseFloat` on the
attribute value, kept only when finite. -/
def parseNumericAttribute (v : Option (List Char)) : Option ℚ :=
  match v with
  | none => none
  | some s =>
    if s.isEmpty then none
    else
      match parseFloatJs s with
      | JsNum.num q => some q
      | _ => none

/-- `parseViewBoxDimensions` from `parseSvgFile`: trim, split on `[\s,]+`,
`parseFloat` each part; require exactly four parts, none `NaN`; yield the
third and fourth (width, height). -/
def parseViewBoxDimensions (value : String) : Option (JsNum × JsNum) :=
  let parts := (splitSeps (jsTrim value).data).map parseFloatJs
  match parts with
  | [a, b, w, h] =>
    if a = JsNum.nan || b = JsNum.nan || w = JsNum.nan || h = JsNum.nan then none
    else some (w, h)
  | _ => none

/-- Result of `parseSvgFile`. -/
structure NormalizedSvg where
  body : String
  width : JsNum
  height : JsNum
  viewBox : String
deriving DecidableEq, Repr

/-- `parseSvgFile` (file-based SVG normalizer) applied to the document text:
require a `viewBox` attribute and non-empty-after-trim inner markup, then
resolve width/height as explicit numeric attribute, else viewBox third/fourth
component, else 512. -/
def parseSvgFile (content : String) : Option NormalizedSvg :=
  let viewBoxMatch := attrCapture "viewBox" content.data
  let widthMatch := attrCapture "width" content.data
  let heightMatch := attrCapture "height" content.data
  match viewBoxMatch with
  | none => none
  | some vbRaw =>
    match svgBodyCapture content.data with
    | none => none
    | some bodyRaw =>
      let body := jsTrim (String.mk bodyRaw)
      if body = "" then none
      else
        let viewBox := jsTrim (String.mk vbRaw)
        let dims := parseViewBoxDimensions viewBox
        let width : JsNum :=
          match parseNumericAttribute widthMatch with
          | some q => JsNum.num q
          | none => match dims with | some (w, _) => w | none => JsNum.num 512
        let height : JsNum :=
          match parseNumericAttribute heightMatch with
          | some q => JsNum.num q
          | none => match dims with | some (_, h) => h | none => JsNum.num 512
        some ⟨body, width, height, viewBox⟩

/-- `path` field of a metadata descriptor: one path string or a list. -/
inductive SvgPathData where
  | single (s : String)
  | many (l : List String)
deriving DecidableEq, Repr

/-- A per-style embedded SVG descriptor from the kit metadata (`SvgData`).
Numeric fields come from JSON, hence are finite rationals. -/
structure SvgData where
  height : Option ℚ
  path : Option SvgPathData
  raw : Option String
  viewBox : Option (List ℚ)
  width : Option ℚ
deriving DecidableEq, Repr

/-- `extractBodyFromRawSvg`: inner markup of an embedded raw SVG string
(`!raw` catches both a missing and an empty string). -/
def extractBodyFromRawSvg (raw : Option String) : Option String :=
  match raw with
  | none => none
  | some r =>
    if r = "" then none
    else
      match svgBodyCapture r.data with
      | none => none
      | some b =>
        if b.isEmpty then none
        else
          let trimmed := jsTrim (String.mk b)
          if 0 < trimmed.length then some trimmed else none

/-- The path list of a descriptor (`Array.isArray ? path : [path]`). -/
def pathEntries : SvgPathData → List String
  | SvgPathData.single s => [s]
  | SvgPathData.many l => l

/-- JavaScript falsiness of the `path` field (an empty string is falsy,
an array never is). -/
def pathFalsy : SvgPathData → Bool
  | SvgPathData.single s => s = ""
  | SvgPathData.many _ => false

/-- `buildSvgBody`: inner markup of the embedded raw SVG when extractable,
otherwise one `path` element per non-blank path string, joined by newlines;
`none` when neither source yields content. -/
def buildSvgBody (svgData : SvgData) : Option String :=
  match extractBodyFromRawSvg svgData.raw with
  | some rawBody => some rawBody
  | none =>
    match svgData.path with
    | none => none
    | some p =>
      if pathFalsy p then none
      else
        let elements := ((pathEntries p).filter (fun seg => 0 < (jsTrim seg).length)).map
          (fun seg => "<path d=\"" ++ seg ++ "\" fill=\"currentColor\" />")
        if elements.isEmpty then none else some (String.intercalate "\n" elements)

/-- `formatViewBox`: the descriptor's four-component viewBox joined by
spaces, else `"0 0 {width ?? 512} {height ?? 512}"`. -/
def formatViewBox (svgData : SvgData) (w h : Option JsNum) : String :=
  let fallback := "0 0 " ++ jsNumToString (w.getD (JsNum.num 512)) ++ " " ++
    jsNumToString (h.getD (JsNum.num 512))
  match svgData.viewBox with
  | some vb => if vb.length = 4 then String.intercalate " " (vb.map qToString) else fallback
  | none => fallback

/-- `deriveDimensions` from `parseKit`: the descriptor's explicit
width/height, else its viewBox third/fourth component, else 512. -/
def deriveDimensions (svgData : Option SvgData) : JsNum × JsNum :=
  match svgData with
  | none => (JsNum.num 512, JsNum.num 512)
  | some d =>
    let vbPair : Option ℚ × Option ℚ :=
      match d.viewBox with
      | some vb => if vb.length = 4 then (vb.get? 2, vb.get? 3) else (none, none)
      | none => (none, none)
    (JsNum.num (d.width.getD (vbPair.1.getD 512)),
     JsNum.num (d.height.getD (vbPair.2.getD 512)))

/-! ## Icon store (`src/services/databaseService.ts`)

The staging store is an in-memory SQLite table with
`UNIQUE(name, style)` and an `AUTOINCREMENT` integer primary key.  It is
modelled as the list of live rows in ascending rowid order together with the
next rowid.  `INSERT OR REPLACE` deletes any conflicting row and appends a
fresh row with a new rowid; a `SELECT` without `ORDER BY` yields rows in
table (rowid) order. -/

/-- A reconciled icon record (`IconData`). -/
structure IconData where
  name : String
  style : String
  body : String
  width : JsNum
  height : JsNum
  viewBox : String
  unicode : String
  searchTerms : List String
deriving DecidableEq, Repr

/-- A stored row of the `icons` table; `searchTerms` holds the JSON text
written by `insertIcon`. -/
structure IconRow where
  id : ℕ
  name : String
  style : String
  body : String
  width : JsNum
  height : JsNum
  viewBox : String
  unicode : String
  searchTerms : String
deriving DecidableEq, Repr

/-- The staging database. -/
structure Db where
  rows : List IconRow
  nextId : ℕ
deriving DecidableEq, Repr

/-- `initDatabase`: fresh empty store. -/
def initDatabase : Db := ⟨[], 1⟩

/-- `insertIcon`: `INSERT OR REPLACE` on the `(name, style)` unique key,
serializing the search terms with `JSON.stringify`. -/
def insertIcon (db : Db) (d : IconData) : Db :=
  ⟨db.rows.filter (fun r => !(r.name == d.name && r.style == d.style)) ++
    [⟨db.nextId, d.name, d.style, d.body, d.width, d.height, d.viewBox, d.unicode,
      jsonStringify d.searchTerms⟩],
   db.nextId + 1⟩

/-- Decoding of a stored row's search terms: `JSON.parse(text || '[]')`.
(`JSON.parse` throws on malformed text; that case — modelled as `[]` — is
unreachable for rows written by `insertIcon`.) -/
def decodeTerms (text : String) : List String :=
  (jsonParseTerms (if text = "" then "[]" else text)).getD []

/-- `getIconsByStyle`: `SELECT … FROM icons WHERE style = ?` (no `ORDER BY`),
with the `style` field of each result set from the argument. -/
def getIconsByStyle (db : Db) (style : String) : List IconData :=
  (db.rows.filter (fun r => r.style == style)).map (fun r =>
    ⟨r.name, style, r.body, r.width, r.height, r.viewBox, r.unicode,
      decodeTerms r.searchTerms⟩)

/-- SQLite `LIKE` pattern matching (`%` any run, `_` any one character,
ASCII-case-insensitive).  Every recursive call shrinks the combined length
of pattern and text by at least one while spending one unit of fuel. -/
def likeMatchesF : ℕ → List Char → List Char → Bool
  | 0, _, _ => false
  | fuel + 1, p, t =>
    match p, t with
    | [], [] => true
    | [], _ :: _ => false
    | '%' :: p2, t =>
      likeMatchesF fuel p2 t ||
        (match t with | [] => false | _ :: t2 => likeMatchesF fuel ('%' :: p2) t2)
    | '_' :: p2, t => (match t with | [] => false | _ :: t2 => likeMatchesF fuel p2 t2)
    | c :: p2, t =>
      match t with
      | [] => false
      | d :: t2 => lowerChar c = lowerChar d && likeMatchesF fuel p2 t2

/-- SQLite `LIKE` with sufficient fuel. -/
def likeMatches (p t : List Char) : Bool :=
  likeMatchesF (p.length + t.length + 1) p t

/-- `column LIKE '%' || q || '%'`. -/
def likeContainsQ (q s : String) : Bool :=
  likeMatches ('%' :: q.data ++ ['%']) s.data

/-- The `ORDER BY name, style` ordering on rows. -/
def nameStyleLE (a b : IconRow) : Prop :=
  a.name < b.name ∨ (a.name = b.name ∧ a.style ≤ b.style)

instance nameStyleLE.decRel : DecidableRel nameStyleLE := fun _ _ =>
  inferInstanceAs (Decidable (_ ∨ _))

instance nameStyleLE.total : IsTotal IconRow nameStyleLE := by
  constructor
  intro a b
  rcases lt_trichotomy a.name b.name with h | h | h
  · exact Or.inl (Or.inl h)
  · rcases le_total a.style b.style with h2 | h2
    · exact Or.inl (Or.inr ⟨h, h2⟩)
    · exact Or.inr (Or.inr ⟨h.symm, h2⟩)
  · exact Or.inr (Or.inl h)

instance nameStyleLE.trans : IsTrans IconRow nameStyleLE := by
  constructor
  intro a b c hab hbc
  rcases hab with h1 | ⟨h1, h1'⟩
  · rcases hbc with h2 | ⟨h2, _⟩
    · exact Or.inl (h1.trans h2)
    · exact Or.inl (h2 ▸ h1)
  · rcases hbc with h2 | ⟨h2, h2'⟩
    · exact Or.inl (h1 ▸ h2)
    · exact Or.inr ⟨h1.trans h2, h1'.trans h2'⟩

/-- Mapping of a full row back to an `IconData` (the `SELECT *` readers). -/
def rowRecord (r : IconRow) : IconData :=
  ⟨r.name, r.style, r.body, r.width, r.height, r.viewBox, r.unicode,
    decodeTerms r.searchTerms⟩

/-- `searchIcons`: rows whose `name` or serialized `searchTerms` text matches
`LIKE '%query%'`, optionally restricted to a non-empty style list, ordered by
`(name, style)`. -/
def searchIcons (db : Db) (q : String) (styles : Option (List String)) : List IconData :=
  let rowOK := fun (r : IconRow) =>
    (likeContainsQ q r.name || likeContainsQ q r.searchTerms) &&
    (match styles with
     | some ss => if ss.isEmpty then true else ss.contains r.style
     | none => true)
  (List.insertionSort nameStyleLE (db.rows.filter rowOK)).map rowRecord

/-! ## Kit parsing / reconciliation (`src/services/kitParserService.ts`)

`parseKit` walks the kit's `svgs/{style}/{name}.svg` layout, looks up each
icon name in the metadata, merges the file-based normalization with the
metadata descriptor, and upserts the resulting records.  The filesystem walk
is abstracted as explicit data: the metadata is a name-keyed association
list, and the kit is a list of `(style, files)` with each file a
`(name, contents)` pair. -/

/-- A metadata entry (`FontAwesomeIcon`): its unicode, optional search
terms, and the per-style embedded descriptors. -/
structure FaIcon where
  unicode : String
  searchTerms : Option (List String)
  svg : List (String × SvgData)
deriving DecidableEq, Repr

/-- The name-keyed metadata mapping (`FontAwesomeMetadata`). -/
def Metadata := List (String × FaIcon)

/-- The kit's SVG directory layout: styles with their named SVG files. -/
def KitSvgs := List (String × List (String × String))

/-- The loop body of `parseKit` for one `(style, icon-name, file-contents)`
triple: reconcile the file-based parse with the metadata descriptor, or
`none` when the pair is skipped (missing metadata entry, or no body from
either source). -/
def processIconPair (md : Metadata) (style iconName content : String) : Option IconData :=
  match List.lookup iconName md with
  | none => none
  | some icon =>
    let svgData := List.lookup style icon.svg
    let parsed := parseSvgFile content
    let body1 : Option String :=
      match parsed with
      | some p => some p.body
      | none => match svgData with | some sd => buildSvgBody sd | none => none
    let derived := deriveDimensions svgData
    let width : JsNum := match parsed with | some p => p.width | none => derived.1
    let height : JsNum := match parsed with | some p => p.height | none => derived.2
    let viewBox0 : Option String := match parsed with | some p => some p.viewBox | none => none
    let viewBox : String :=
      match viewBox0 with
      | some vb =>
        if vb = "" then
          match svgData with
          | some sd => formatViewBox sd (some width) (some height)
          | none => "0 0 " ++ jsNumToString width ++ " " ++ jsNumToString height
        else vb
      | none =>
        match svgData with
        | some sd => formatViewBox sd (some width) (some height)
        | none => "0 0 " ++ jsNumToString width ++ " " ++ jsNumToString height
    match body1 with
    | none => none
    | some b =>
      some ⟨iconName, style, b, width, height, viewBox, icon.unicode,
        icon.searchTerms.getD []⟩

/-- The `(style, name, contents)` triples of the kit walk, in order. -/
def kitPairs (kit : KitSvgs) : List (String × String × String) :=
  kit.foldr (fun sf acc => (sf.2.map (fun nc => (sf.1, nc.1, nc.2))) ++ acc) []

/-- One fold step of the `parseKit` loop: insert the reconciled record, or
leave the store untouched for a skipped pair. -/
def parseKitStep (md : Metadata) (db : Db) (p : String × String × String) : Db :=
  match processIconPair md p.1 p.2.1 p.2.2 with
  | some d => insertIcon db d
  | none => db

/-- `parseKit` on the staging store: fold the loop body over the kit walk. -/
def parseKitDb (md : Metadata) (kit : KitSvgs) : Db :=
  (kitPairs kit).foldl (parseKitStep md) initDatabase

/-- The metadata descriptor's synthesized body for a `(name, style)` pair,
when any (`metadata[name].svg?.[style]` fed to `buildSvgBody`). -/
def descriptorBody (md : Metadata) (iconName style : String) : Option String :=
  match List.lookup iconName md with
  | none => none
  | some icon =>
    match List.lookup style icon.svg with
    | some sd => buildSvgBody sd
    | none => none

/-! ## Export assembler (`generatePackage`, `index.ts`)

For each selected style with at least one stored record, `generatePackage`
builds a `StyleIconSet` keyed by style and accumulates the icon total.  Only
the icon-set assembly and the returned total are modelled; the surrounding
file writes are I/O templating outside the core. -/

/-- An icon entry of the export (`IconifyIcon` geometry fields). -/
structure ExportIcon where
  body : String
  width : JsNum
  height : JsNum
  left : ℤ
  top : ℤ
  rotate : ℤ
  hFlip : Bool
  vFlip : Bool
deriving DecidableEq, Repr

/-- The `info` block of a style icon set. -/
structure StyleInfo where
  name : String
  total : ℕ
  version : String
  authorName : String
  licenseTitle : String
  licenseSpdx : String
deriving DecidableEq, Repr

/-- A per-style icon-set document (`StyleIconSet`).  The `prefix` field of
the source is named `pfx` (`prefix` is not a valid Lean identifier). -/
structure StyleIconSet where
  pfx : String
  icons : List (String × ExportIcon)
  width : JsNum
  height : JsNum
  info : StyleInfo
deriving DecidableEq, Repr

/-- Converter configuration (`KitConfig`); `prefix` is named `pfx`. -/
structure KitConfig where
  name : String
  version : String
  description : String
  iconSetName : String
  pfx : String
  selectedStyles : List String
deriving DecidableEq, Repr

/-- `style.charAt(0).toUpperCase()` followed by the remaining characters
with every hyphen removed (a global hyphen-removing replace). -/
def styleHumanName (style : String) : String :=
  match style.data with
  | [] => ""
  | c :: rest => String.mk (upperChar c :: rest.filter (fun d => d ≠ '-'))

/-- The icon mapping of the export (`{body, width, height, left: 0, top: 0,
rotate: 0, vFlip: false, hFlip: false}`). -/
def mkExportIcon (i : IconData) : ExportIcon :=
  ⟨i.body, i.width, i.height, 0, 0, 0, false, false⟩

/-- JavaScript-object keyed update: replace the value at an existing key in
place, otherwise append the new binding. -/
def assocSet (l : List (String × StyleIconSet)) (key : String) (v : StyleIconSet) :
    List (String × StyleIconSet) :=
  if (List.lookup key l).isSome then
    l.map (fun p => if p.1 = key then (key, v) else p)
  else l ++ [(key, v)]

/-- The `StyleIconSet` built for one style (`generatePackage` loop body). -/
def mkStyleSet (db : Db) (config : KitConfig) (style : String) : StyleIconSet :=
  let icons := getIconsByStyle db style
  ⟨config.pfx ++ "-" ++ style,
   icons.map (fun i => (i.name, mkExportIcon i)),
   JsNum.num 24, JsNum.num 24,
   ⟨config.iconSetName ++ " " ++ styleHumanName style, icons.length, config.version,
    "FontAwesome to Iconify Converter", "FontAwesome Pro License", "UNLICENSED"⟩⟩

/-- The `generatePackage` loop body for one selected style: skip the style
when it has no stored records, otherwise add its icon set under the style
key and add its record count to the running total. -/
def genStep (db : Db) (config : KitConfig) (acc : List (String × StyleIconSet) × ℕ)
    (style : String) : List (String × StyleIconSet) × ℕ :=
  let icons := getIconsByStyle db style
  if icons.length = 0 then acc
  else (assocSet acc.1 style (mkStyleSet db config style), acc.2 + icons.length)

/-- The icon-set assembly of `generatePackage`: the style-keyed sets (styles
with zero records skipped) and the accumulated icon total that the function
returns. -/
def generatePackage (db : Db) (config : KitConfig) :
    List (String × StyleIconSet) × ℕ :=
  config.selectedStyles.foldl (genStep db config) ([], 0)

/-! ## Claims -/

/-- The spec's width/height resolution chain, stated in its own words:
explicit numeric attribute value, else the viewBox component, else the fixed
default dimension 512. -/
def dimensionResolutionSpec (attrVal : Option (List Char)) (vbComponent : Option JsNum) :
    JsNum :=
  match parseNumericAttribute attrVal with
  | some q => JsNum.num q
  | none => match vbComponent with | some w => w | none => JsNum.num 512

/-- The (width, height) pair carried by the document's viewBox attribute,
when present and well-formed. -/
def fileViewBoxDims (content : String) : Option (JsNum × JsNum) :=
  match attrCapture "viewBox" content.data with
  | some vb => parseViewBoxDimensions (jsTrim (String.mk vb))
  | none => none

/-- C3: whenever the file-based normalizer parses an SVG document, the
returned width and height follow the resolution order: explicit numeric
`width=`/`height=` attribute value (unit suffixes such as `"128px"`
tolerated, witnessed by the third conjunct), else the third/fourth viewBox
component, else the fixed default dimension 512. -/
theorem c3_dimension_resolution (content : String) (p : NormalizedSvg)
    (h : parseSvgFile content = some p) :
    p.width = dimensionResolutionSpec (attrCapture "width" content.data)
        ((fileViewBoxDims content).map Prod.fst) ∧
    p.height = dimensionResolutionSpec (attrCapture "height" content.data)
        ((fileViewBoxDims content).map Prod.snd) ∧
    parseNumericAttribute (some "128px".data) = some 128 := by
  rw [parseSvgFile] at h
  cases hvb : attrCapture "viewBox" content.data with
  | none => rw [hvb] at h; simp at h
  | some vbRaw =>
    rw [hvb] at h
    cases hbc : svgBodyCapture content.data with
    | none => rw [hbc] at h; simp at h
    | some bodyRaw =>
      rw [hbc] at h
      simp only [] at h
      by_cases hbe : jsTrim (String.mk bodyRaw) = ""
      · rw [if_pos hbe] at h; simp at h
      · rw [if_neg hbe] at h
        rw [Option.some.injEq] at h
        subst h
        refine ⟨?_, ?_, by decide⟩
        · show (match parseNumericAttribute (attrCapture "width" content.data) with
            | some q => JsNum.num q
            | none =>
              match parseViewBoxDimensions (jsTrim (String.mk vbRaw)) with
              | some (w, _) => w
              | none => JsNum.num 512) = _
          unfold dimensionResolutionSpec fileViewBoxDims
          rw [hvb]
          rw [show (match some vbRaw with
              | some vb => parseViewBoxDimensions (jsTrim (String.mk vb))
              | none => none) = parseViewBoxDimensions (jsTrim (String.mk vbRaw)) from rfl]
          cases parseNumericAttribute (attrCapture "width" content.data) with
          | some q => rfl
          | none =>
            cases parseViewBoxDimensions (jsTrim (String.mk vbRaw)) with
            | none => rfl
            | some wh => cases wh; rfl
        · show (match parseNumericAttribute (attrCapture "height" content.data) with
            | some q => JsNum.num q
            | none =>
              match parseViewBoxDimensions (jsTrim (String.mk vbRaw)) with
              | some (_, h) => h
              | none => JsNum.num 512) = _
          unfold dimensionResolutionSpec fileViewBoxDims
          rw [hvb]
          rw [show (match some vbRaw with
              | some vb => parseViewBoxDimensions (jsTrim (String.mk vb))
              | none => none) = parseViewBoxDimensions (jsTrim (String.mk vbRaw)) from rfl]
          cases parseNumericAttribute (attrCapture "height" content.data) with
          | some q => rfl
          | none =>
            cases parseViewBoxDimensions (jsTrim (String.mk vbRaw)) with
            | none => rfl
            | some wh => cases wh; rfl

/-- C3 witness: the spec's Example 2 (`width="128px" height="256"
viewBox="0 0 320 512"` resolves to width 128, height 256). -/
theorem c3_witness :
    parseSvgFile "<svg width=\"128px\" height=\"256\" viewBox=\"0 0 320 512\">x</svg>" =
      some ⟨"x", JsNum.num 128, JsNum.num 256, "0 0 320 512"⟩ ∧
    (JsNum.num 128 = dimensionResolutionSpec
        (attrCapture "width" "<svg width=\"128px\" height=\"256\" viewBox=\"0 0 320 512\">x</svg>".data)
        ((fileViewBoxDims "<svg width=\"128px\" height=\"256\" viewBox=\"0 0 320 512\">x</svg>").map Prod.fst) ∧
      JsNum.num 256 = dimensionResolutionSpec
        (attrCapture "height" "<svg width=\"128px\" height=\"256\" viewBox=\"0 0 320 512\">x</svg>".data)
        ((fileViewBoxDims "<svg width=\"128px\" height=\"256\" viewBox=\"0 0 320 512\">x</svg>").map Prod.snd) ∧
      parseNumericAttribute (some "128px".data) = some 128) :=
  ⟨by decide,
   c3_dimension_resolution
     "<svg width=\"128px\" height=\"256\" viewBox=\"0 0 320 512\">x</svg>"
     ⟨"x", JsNum.num 128, JsNum.num 256, "0 0 320 512"⟩ (by decide)⟩

/-- C7: the file-based normalizer is total (it returns an optional result by
construction, never raising), and returns the null outcome whenever the text
lacks a `viewBox` attribute or the inner markup between the svg tags is
empty after trimming. -/
theorem c7_parse_failure_null (content : String)
    (h : attrCapture "viewBox" content.data = none ∨
      (∀ b, svgBodyCapture content.data = some b → jsTrim (String.mk b) = "")) :
    parseSvgFile content = none := by
  rw [parseSvgFile]
  rcases h with h | h
  · rw [h]
  · cases hvb : attrCapture "viewBox" content.data with
    | none => rfl
    | some vbRaw =>
      cases hbc : svgBodyCapture content.data with
      | none => rfl
      | some bodyRaw =>
        have hbe := h bodyRaw hbc
        simp only [hbe, if_pos]

/-- C7 witness: a document with a `viewBox` but whitespace-only inner markup
is rejected, as is one without any `viewBox` attribute. -/
theorem c7_witness :
    parseSvgFile "<svg viewBox=\"0 0 1 1\">  </svg>" = none ∧
    parseSvgFile "<svg width=\"3\">x</svg>" = none :=
  ⟨c7_parse_failure_null _ (Or.inr (by decide)), c7_parse_failure_null _ (Or.inl (by decide))⟩

/-- C1 counterexample: an SVG file whose `viewBox` attribute is a single
space parses successfully (non-empty body) with the trimmed file viewBox
`""`, yet the stored record's viewBox is the descriptor-derived
`"0 0 10 10"`, not the file-derived value, refuting the claim that all four
file-derived fields are stored unchanged. -/
theorem c1_counterexample :
    parseSvgFile "<svg viewBox=\" \"><path d=\"M0 0h1\"/></svg>" =
      some ⟨"<path d=\"M0 0h1\"/>", JsNum.num 512, JsNum.num 512, ""⟩ ∧
    List.lookup "ic"
        [("ic", (⟨"f101", some ["t1"], [("solid", ⟨none, none, none, some [0, 0, 10, 10], none⟩)]⟩ : FaIcon))] =
      some ⟨"f101", some ["t1"], [("solid", ⟨none, none, none, some [0, 0, 10, 10], none⟩)]⟩ ∧
    processIconPair
        [("ic", ⟨"f101", some ["t1"], [("solid", ⟨none, none, none, some [0, 0, 10, 10], none⟩)]⟩)]
        "solid" "ic" "<svg viewBox=\" \"><path d=\"M0 0h1\"/></svg>" =
      some ⟨"ic", "solid", "<path d=\"M0 0h1\"/>", JsNum.num 512, JsNum.num 512,
        "0 0 10 10", "f101", ["t1"]⟩ ∧
    ("0 0 10 10" : String) ≠ "" := by
  refine ⟨by decide, by decide, by decide, by decide⟩

/-- C1 (amended): when the SVG file parses and the metadata descriptor for
the style exists, the stored record's body, width and height are exactly the
file-derived values, and the viewBox is the file-derived string whenever that
string is non-empty after trimming; an empty-after-trim file viewBox is
replaced by the descriptor-derived (or synthesized) viewBox. -/
theorem c1_file_overrides (md : Metadata) (style iconName content : String)
    (icon : FaIcon) (sd : SvgData) (p : NormalizedSvg)
    (hicon : List.lookup iconName md = some icon)
    (hsd : List.lookup style icon.svg = some sd)
    (hp : parseSvgFile content = some p) :
    ∃ d, processIconPair md style iconName content = some d ∧
      d.body = p.body ∧ d.width = p.width ∧ d.height = p.height ∧
      (p.viewBox ≠ "" → d.viewBox = p.viewBox) ∧
      (p.viewBox = "" → d.viewBox = formatViewBox sd (some p.width) (some p.height)) := by
  simp only [processIconPair, hicon, hsd, hp]
  by_cases hv : p.viewBox = ""
  · refine ⟨_, rfl, rfl, rfl, rfl, fun hne => absurd hv hne, fun _ => ?_⟩
    simp [hv]
  · refine ⟨_, rfl, rfl, rfl, rfl, fun _ => ?_, fun heq => absurd heq hv⟩
    simp [hv]

/-- C1 witness: a well-formed file plus a descriptor; all four fields stored
from the file. -/
theorem c1_witness :
    List.lookup "ic"
        [("ic", (⟨"f101", some ["t1"], [("solid", ⟨none, none, none, some [0, 0, 10, 10], none⟩)]⟩ : FaIcon))] =
      some ⟨"f101", some ["t1"], [("solid", ⟨none, none, none, some [0, 0, 10, 10], none⟩)]⟩ ∧
    parseSvgFile "<svg viewBox=\"0 0 48 64\">b</svg>" =
      some ⟨"b", JsNum.num 48, JsNum.num 64, "0 0 48 64"⟩ ∧
    ∃ d, processIconPair
        [("ic", ⟨"f101", some ["t1"], [("solid", ⟨none, none, none, some [0, 0, 10, 10], none⟩)]⟩)]
        "solid" "ic" "<svg viewBox=\"0 0 48 64\">b</svg>" = some d ∧
      d.body = "b" ∧ d.width = JsNum.num 48 ∧ d.height = JsNum.num 64 ∧
      (("0 0 48 64" : String) ≠ "" → d.viewBox = "0 0 48 64") ∧
      (("0 0 48 64" : String) = "" → d.viewBox =
        formatViewBox ⟨none, none, none, some [0, 0, 10, 10], none⟩
          (some (JsNum.num 48)) (some (JsNum.num 64))) :=
  ⟨by decide, by decide,
   c1_file_overrides
     [("ic", ⟨"f101", some ["t1"], [("solid", ⟨none, none, none, some [0, 0, 10, 10], none⟩)]⟩)]
     "solid" "ic" "<svg viewBox=\"0 0 48 64\">b</svg>"
     ⟨"f101", some ["t1"], [("solid", ⟨none, none, none, some [0, 0, 10, 10], none⟩)]⟩
     ⟨none, none, none, some [0, 0, 10, 10], none⟩
     ⟨"b", JsNum.num 48, JsNum.num 64, "0 0 48 64"⟩
     (by decide) (by decide) (by decide)⟩

/-- The spec's description of the descriptor-synthesized body: the raw SVG's
inner markup if present, otherwise one path element per non-empty path
string, joined; null when neither source yields content. -/
def bodyFromDescriptorSpec (sd : SvgData) : Option String :=
  match extractBodyFromRawSvg sd.raw with
  | some r => some r
  | none =>
    match sd.path with
    | none => none
    | some p =>
      let elements := ((pathEntries p).filter (fun seg => 0 < (jsTrim seg).length)).map
        (fun seg => "<path d=\"" ++ seg ++ "\" fill=\"currentColor\" />")
      if elements.isEmpty then none else some (String.intercalate "\n" elements)

/-- The code's `buildSvgBody` agrees with the spec's description of the
synthesis (the extra falsiness check on an empty path string is redundant:
an empty path produces no elements anyway). -/
theorem buildSvgBody_eq_spec (sd : SvgData) : buildSvgBody sd = bodyFromDescriptorSpec sd := by
  unfold buildSvgBody bodyFromDescriptorSpec
  cases extractBodyFromRawSvg sd.raw with
  | some r => rfl
  | none =>
    cases hp : sd.path with
    | none => rfl
    | some p =>
      by_cases hf : pathFalsy p = true
      · cases p with
        | single s =>
          simp only [pathFalsy, decide_eq_true_eq] at hf
          subst hf
          simp [pathEntries, jsTrim]
        | many l => simp [pathFalsy] at hf
      · simp only [hf]
        simp only [Bool.false_eq_true, if_neg (fun h => hf h)]
        rw [if_neg (fun hcontra => hf (by
          simp only [Bool.false_eq_true] at hcontra))]

/-- C2 counterexample: a pair whose file is unparsable and whose descriptor
carries the non-empty raw SVG text `"<svg></svg>"` (and no path list)
produces no record at all — the raw text has no extractable inner markup —
refuting the claim that any non-empty raw-SVG descriptor yields a record. -/
theorem c2_counterexample :
    parseSvgFile "x" = none ∧
    ("<svg></svg>" : String) ≠ "" ∧
    buildSvgBody ⟨none, none, some "<svg></svg>", none, none⟩ = none ∧
    processIconPair
        [("ic", ⟨"f101", none, [("solid", ⟨none, none, some "<svg></svg>", none, none⟩)]⟩)]
        "solid" "ic" "x" = none := by
  refine ⟨by decide, by decide, by decide, by decide⟩

/-- C2 (amended): when the file is unusable (parse yields null) and the
descriptor for the style synthesizes a non-null body — raw SVG with
extractable non-empty inner markup, or at least one non-blank path string —
a record is produced whose body is exactly that synthesized body, and the
synthesis follows the spec's description (raw inner markup if present, else
one path element per non-empty path string, joined). -/
theorem c2_descriptor_body (md : Metadata) (style iconName content : String)
    (icon : FaIcon) (sd : SvgData) (b : String)
    (hicon : List.lookup iconName md = some icon)
    (hsd : List.lookup style icon.svg = some sd)
    (hp : parseSvgFile content = none)
    (hb : buildSvgBody sd = some b) :
    ∃ d, processIconPair md style iconName content = some d ∧ d.body = b ∧
      buildSvgBody sd = bodyFromDescriptorSpec sd := by
  simp only [processIconPair, hicon, hsd, hp, hb]
  exact ⟨_, rfl, rfl, hb ▸ buildSvgBody_eq_spec sd⟩

/-- C2 witness: unparsable file, descriptor with two path strings; the
record's body is the two joined path elements. -/
theorem c2_witness :
    parseSvgFile "x" = none ∧
    buildSvgBody ⟨none, some (SvgPathData.many ["M0 0h10v10H0z", "M1 1h2v2H1z"]), none,
        some [0, 0, 10, 10], none⟩ =
      some "<path d=\"M0 0h10v10H0z\" fill=\"currentColor\" />\n<path d=\"M1 1h2v2H1z\" fill=\"currentColor\" />" ∧
    ∃ d, processIconPair
        [("ic", ⟨"f101", none,
          [("solid", ⟨none, some (SvgPathData.many ["M0 0h10v10H0z", "M1 1h2v2H1z"]), none,
            some [0, 0, 10, 10], none⟩)]⟩)]
        "solid" "ic" "x" = some d ∧
      d.body = "<path d=\"M0 0h10v10H0z\" fill=\"currentColor\" />\n<path d=\"M1 1h2v2H1z\" fill=\"currentColor\" />" ∧
      buildSvgBody ⟨none, some (SvgPathData.many ["M0 0h10v10H0z", "M1 1h2v2H1z"]), none,
          some [0, 0, 10, 10], none⟩ =
        bodyFromDescriptorSpec ⟨none, some (SvgPathData.many ["M0 0h10v10H0z", "M1 1h2v2H1z"]), none,
          some [0, 0, 10, 10], none⟩ :=
  ⟨by decide, by decide,
   c2_descriptor_body
     [("ic", ⟨"f101", none,
       [("solid", ⟨none, some (SvgPathData.many ["M0 0h10v10H0z", "M1 1h2v2H1z"]), none,
         some [0, 0, 10, 10], none⟩)]⟩)]
     "solid" "ic" "x"
     ⟨"f101", none,
       [("solid", ⟨none, some (SvgPathData.many ["M0 0h10v10H0z", "M1 1h2v2H1z"]), none,
         some [0, 0, 10, 10], none⟩)]⟩
     ⟨none, some (SvgPathData.many ["M0 0h10v10H0z", "M1 1h2v2H1z"]), none,
       some [0, 0, 10, 10], none⟩
     "<path d=\"M0 0h10v10H0z\" fill=\"currentColor\" />\n<path d=\"M1 1h2v2H1z\" fill=\"currentColor\" />"
     (by decide) (by decide) (by decide) (by decide)⟩

/-- C6: a kit pair whose icon name has no metadata entry, or for which
neither the file parse nor the metadata descriptor yields a body, is skipped
silently: its reconciliation produces no record, the fold step leaves the
store untouched, and a whole kit pass containing the pair produces exactly
the store of the pass without it (so every other pair is still processed). -/
theorem c6_skip_silent (md : Metadata) (style iconName content : String)
    (hskip : List.lookup iconName md = none ∨
      (parseSvgFile content = none ∧ descriptorBody md iconName style = none)) :
    processIconPair md style iconName content = none ∧
    (∀ db : Db, parseKitStep md db (style, iconName, content) = db) ∧
    (∀ pre post : List (String × String × String),
      List.foldl (parseKitStep md) initDatabase (pre ++ (style, iconName, content) :: post) =
        List.foldl (parseKitStep md) initDatabase (pre ++ post)) := by
  have hnone : processIconPair md style iconName content = none := by
    rcases hskip with h | ⟨hp, hdb⟩
    · unfold processIconPair
      rw [h]
    · cases hicon : List.lookup iconName md with
      | none => unfold processIconPair; rw [hicon]
      | some icon =>
        simp only [descriptorBody, hicon] at hdb
        simp only [processIconPair, hicon, hp]
        cases hsd : List.lookup style icon.svg with
        | none => simp
        | some sd =>
          simp only [hsd] at hdb
          simp [hsd, hdb]
  have hstep : ∀ db : Db, parseKitStep md db (style, iconName, content) = db := by
    intro db
    unfold parseKitStep
    rw [hnone]
  refine ⟨hnone, hstep, fun pre post => ?_⟩
  rw [List.foldl_append, List.foldl_append, List.foldl_cons, hstep]

/-- C6 witness: an SVG file with no matching metadata entry, and a second
kit pair that is still processed when it rides alongside the skipped one. -/
theorem c6_witness :
    List.lookup "ghost" ([] : Metadata) = none ∧
    (processIconPair [] "solid" "ghost" "<svg viewBox=\"0 0 1 1\">x</svg>" = none ∧
      (∀ db : Db, parseKitStep [] db ("solid", "ghost", "<svg viewBox=\"0 0 1 1\">x</svg>") = db) ∧
      (∀ pre post : List (String × String × String),
        List.foldl (parseKitStep []) initDatabase
            (pre ++ ("solid", "ghost", "<svg viewBox=\"0 0 1 1\">x</svg>") :: post) =
          List.foldl (parseKitStep []) initDatabase (pre ++ post))) :=
  ⟨by decide,
   c6_skip_silent [] "solid" "ghost" "<svg viewBox=\"0 0 1 1\">x</svg>" (Or.inl (by decide))⟩

/-- The stored columns of a row other than its rowid. -/
def rowFields (r : IconRow) :
    String × String × String × JsNum × JsNum × String × String × String :=
  (r.name, r.style, r.body, r.width, r.height, r.viewBox, r.unicode, r.searchTerms)

/-- The columns `insertIcon` writes for a record. -/
def dataFields (d : IconData) :
    String × String × String × JsNum × JsNum × String × String × String :=
  (d.name, d.style, d.body, d.width, d.height, d.viewBox, d.unicode,
    jsonStringify d.searchTerms)

/-- A whole sequence of inserts into a fresh store. -/
def insertAll (l : List IconData) : Db := l.foldl insertIcon initDatabase

/-- Row key test against a `(name, style)` pair. -/
def keyRow (n s : String) (r : IconRow) : Bool := r.name == n && r.style == s

/-- Record key test against a `(name, style)` pair. -/
def keyData (n s : String) (d : IconData) : Bool := d.name == n && d.style == s

theorem insert_filter_match (db : Db) (d : IconData) (n s : String)
    (hd : keyData n s d = true) :
    (((insertIcon db d).rows.filter (keyRow n s)).map rowFields) = [dataFields d] := by
  have hdn : d.name = n ∧ d.style = s := by
    simpa [keyData, Bool.and_eq_true, beq_iff_eq] using hd
  show ((List.filter (keyRow n s)
      (db.rows.filter (fun r => !(r.name == d.name && r.style == d.style)) ++
        [⟨db.nextId, d.name, d.style, d.body, d.width, d.height, d.viewBox, d.unicode,
          jsonStringify d.searchTerms⟩])).map rowFields) = _
  rw [List.filter_append, List.filter_filter]
  have h1 : List.filter
      (fun r => keyRow n s r && !(r.name == d.name && r.style == d.style)) db.rows = [] := by
    apply List.filter_eq_nil_iff.mpr
    intro r _
    cases hk : keyRow n s r with
    | false => simp [hk]
    | true =>
      have hr : r.name = n ∧ r.style = s := by
        simp only [keyRow, Bool.and_eq_true, beq_iff_eq] at hk
        exact hk
      simp [hr.1, hr.2, hdn.1, hdn.2]
  rw [h1, List.nil_append]
  have h2 : keyRow n s
      (⟨db.nextId, d.name, d.style, d.body, d.width, d.height, d.viewBox, d.unicode,
        jsonStringify d.searchTerms⟩ : IconRow) = true := by
    simp [keyRow, hdn.1, hdn.2]
  rw [List.filter_cons_of_pos h2]
  rfl

theorem insert_filter_nomatch (db : Db) (d : IconData) (n s : String)
    (hd : keyData n s d = false) :
    ((insertIcon db d).rows.filter (keyRow n s)) = db.rows.filter (keyRow n s) := by
  have hdn : ¬(d.name = n ∧ d.style = s) := by
    intro hcontra
    rw [keyData, hcontra.1, hcontra.2] at hd
    simp at hd
  show (List.filter (keyRow n s)
      (db.rows.filter (fun r => !(r.name == d.name && r.style == d.style)) ++
        [⟨db.nextId, d.name, d.style, d.body, d.width, d.height, d.viewBox, d.unicode,
          jsonStringify d.searchTerms⟩])) = _
  rw [List.filter_append, List.filter_filter]
  have h2 : keyRow n s
      (⟨db.nextId, d.name, d.style, d.body, d.width, d.height, d.viewBox, d.unicode,
        jsonStringify d.searchTerms⟩ : IconRow) = false := hd
  rw [List.filter_cons_of_neg (by simp [h2]), List.filter_nil, List.append_nil]
  apply List.filter_congr
  intro r _
  cases hk : keyRow n s r with
  | false => simp [hk]
  | true =>
    have hr : r.name = n ∧ r.style = s := by
      simpa [keyRow, Bool.and_eq_true, beq_iff_eq] using hk
    have hne : (r.name == d.name && r.style == d.style) = false := by
      rw [hr.1, hr.2]
      cases h1 : (n == d.name) with
      | false => simp
      | true =>
        cases h2' : (s == d.style) with
        | false => simp
        | true =>
          exact absurd ⟨(beq_iff_eq.mp h1).symm, (beq_iff_eq.mp h2').symm⟩ hdn
    simp [hk, hne]

theorem foldl_insert_filter (n s : String) (l : List IconData) :
    ∀ db : Db, (((l.foldl insertIcon db).rows.filter (keyRow n s)).map rowFields) =
      match (l.filter (keyData n s)).getLast? with
      | some d => [dataFields d]
      | none => (db.rows.filter (keyRow n s)).map rowFields := by
  induction l with
  | nil => intro db; rfl
  | cons d l ih =>
    intro db
    rw [List.foldl_cons, ih (insertIcon db d)]
    by_cases hd : keyData n s d = true
    · rw [List.filter_cons_of_pos hd]
      cases hl : (l.filter (keyData n s)).getLast? with
      | some d' =>
        have hcc : (d :: l.filter (keyData n s)).getLast? = some d' := by
          cases hfl : l.filter (keyData n s) with
          | nil => rw [hfl] at hl; simp at hl
          | cons a as =>
            rw [hfl] at hl
            rw [List.getLast?_cons_cons, hl]
        rw [hcc]
      | none =>
        have hfl : l.filter (keyData n s) = [] := by
          cases hfl : l.filter (keyData n s) with
          | nil => rfl
          | cons a as =>
            rw [hfl] at hl
            rw [show (a :: as).getLast? = (a :: as).getLast? from rfl] at hl
            cases hlast : (a :: as).getLast? with
            | some x => rw [hlast] at hl; exact absurd hl (by simp)
            | none =>
              have := List.getLast?_isSome.mpr (by simp : a :: as ≠ [])
              rw [hlast] at this
              simp at this
        rw [hfl, List.getLast?_singleton]
        exact insert_filter_match db d n s hd
    · have hd' : keyData n s d = false := by
        cases h : keyData n s d
        · rfl
        · exact absurd h hd
      rw [List.filter_cons_of_neg hd]
      cases hl : (l.filter (keyData n s)).getLast? with
      | some d' => rfl
      | none => rw [insert_filter_nomatch db d n s hd']

/-- C5: after any sequence of `insertIcon` calls into a fresh store, the rows
holding a given `(name, style)` key are: none, when no insert used that key;
or exactly one, whose stored columns are those of the most recent insert for
that key.  Inserting an already-present key overwrites the prior value;
`insertIcon` is total, so no call raises an error. -/
theorem c5_upsert_last_write (l : List IconData) (n s : String) :
    (((insertAll l).rows.filter (keyRow n s)).map rowFields) =
      match (l.filter (keyData n s)).getLast? with
      | some d => [dataFields d]
      | none => [] := by
  rw [insertAll, foldl_insert_filter n s l initDatabase]
  cases (l.filter (keyData n s)).getLast? with
  | some d => rfl
  | none => rfl

/-- Rows produced by any insert sequence are in strictly ascending rowid
order (the table order a `SELECT` without `ORDER BY` yields). -/
theorem insertAll_rows_ascending (l : List IconData) :
    (insertAll l).rows.Pairwise (fun a b => a.id < b.id) := by
  suffices h : ∀ db : Db, db.rows.Pairwise (fun a b => a.id < b.id) →
      (∀ r ∈ db.rows, r.id < db.nextId) →
      (l.foldl insertIcon db).rows.Pairwise (fun a b => a.id < b.id) by
    exact h initDatabase (by simp [initDatabase]) (by simp [initDatabase])
  induction l with
  | nil =>
    intro db h1 _
    exact h1
  | cons d l ih =>
    intro db h1 h2
    rw [List.foldl_cons]
    apply ih
    · show (db.rows.filter _ ++ [_]).Pairwise _
      rw [List.pairwise_append]
      refine ⟨h1.sublist (List.filter_sublist _), by simp, ?_⟩
      intro a ha b hb
      rw [List.mem_singleton] at hb
      subst hb
      exact h2 a (List.mem_of_mem_filter ha)
    · intro r hr
      show r.id < db.nextId + 1
      rcases List.mem_append.mp hr with h | h
      · exact Nat.lt_succ_of_lt (h2 r (List.mem_of_mem_filter h))
      · rw [List.mem_singleton] at h
        subst h
        exact Nat.lt_succ_self _

/-- C4 counterexample: after inserting "zebra" and then "apple" (both style
"solid"), `getIconsByStyle` returns them in insertion order
`["zebra", "apple"]`, not ordered by name — the query has no `ORDER BY`. -/
theorem c4_counterexample :
    (getIconsByStyle (insertIcon (insertIcon initDatabase
        ⟨"zebra", "solid", "<p/>", JsNum.num 1, JsNum.num 1, "0 0 1 1", "f1", []⟩)
        ⟨"apple", "solid", "<p/>", JsNum.num 1, JsNum.num 1, "0 0 1 1", "f2", []⟩)
      "solid").map IconData.name = ["zebra", "apple"] ∧
    (["zebra", "apple"] : List String) ≠ ["apple", "zebra"] :=
  ⟨by decide, by decide⟩

/-- C4 (amended): `getIconsByStyle` returns exactly the stored records whose
style equals the argument, in the table's ascending-rowid (insertion) order;
no ordering by name is applied. -/
theorem c4_list_by_style (l : List IconData) (s : String) :
    ((insertAll l).rows.filter (fun r => r.style == s)).Pairwise (fun a b => a.id < b.id) ∧
    getIconsByStyle (insertAll l) s =
      ((insertAll l).rows.filter (fun r => r.style == s)).map (fun r =>
        ⟨r.name, s, r.body, r.width, r.height, r.viewBox, r.unicode,
          decodeTerms r.searchTerms⟩) ∧
    ∀ d ∈ getIconsByStyle (insertAll l) s, d.style = s := by
  refine ⟨(insertAll_rows_ascending l).sublist (List.filter_sublist _), rfl, ?_⟩
  intro d hd
  rw [getIconsByStyle] at hd
  obtain ⟨r, _, rfl⟩ := List.mem_map.mp hd
  rfl

/-- The serializer never produces the empty string. -/
theorem jsonStringify_ne_empty (l : List String) : jsonStringify l ≠ "" := by
  intro h
  have := congrArg String.data h
  simp [jsonStringify] at this

/-- Decoding a stored search-term column written by `insertIcon` recovers
the original list. -/
theorem decodeTerms_roundtrip (ts : List String) : decodeTerms (jsonStringify ts) = ts := by
  rw [decodeTerms, if_neg (jsonStringify_ne_empty ts), json_roundtrip]
  rfl

/-- C10: inserting a record with integer width and height into a fresh store
and reading back its style yields the record unchanged in every field; in
particular the search-term list survives the JSON serialization round-trip,
order included. -/
theorem c10_store_roundtrip (d : IconData)
    (hw : ∃ n : ℤ, d.width = JsNum.num (mkRat n 1))
    (hh : ∃ n : ℤ, d.height = JsNum.num (mkRat n 1)) :
    getIconsByStyle (insertIcon initDatabase d) d.style = [d] := by
  obtain ⟨nm, st, bo, w, h, vb, u, ts⟩ := d
  have hrows : (insertIcon initDatabase ⟨nm, st, bo, w, h, vb, u, ts⟩).rows =
      [⟨1, nm, st, bo, w, h, vb, u, jsonStringify ts⟩] := rfl
  unfold getIconsByStyle
  rw [hrows, List.filter_cons_of_pos (by simp), List.filter_nil, List.map_cons,
    List.map_nil, decodeTerms_roundtrip]

/-- C10 witness: a concrete record with integer dimensions and a two-term
search list round-trips unchanged. -/
theorem c10_witness :
    getIconsByStyle (insertIcon initDatabase
        ⟨"star", "solid", "<p/>", JsNum.num (mkRat 48 1), JsNum.num (mkRat 64 1),
          "0 0 48 64", "f101", ["a", "b"]⟩) "solid" =
      [⟨"star", "solid", "<p/>", JsNum.num (mkRat 48 1), JsNum.num (mkRat 64 1),
        "0 0 48 64", "f101", ["a", "b"]⟩] :=
  c10_store_roundtrip
    ⟨"star", "solid", "<p/>", JsNum.num (mkRat 48 1), JsNum.num (mkRat 64 1),
      "0 0 48 64", "f101", ["a", "b"]⟩
    ⟨48, rfl⟩ ⟨64, rfl⟩

/-- Case-insensitive substring containment, the relation the claim ascribes
to `search` (stated from the spec's words, for comparison with the code's
`LIKE`-on-serialized-text behaviour). -/
def ciSubstring (q s : String) : Bool :=
  let lq := q.data.map lowerChar
  let ls := s.data.map lowerChar
  (List.range (ls.length + 1)).any (fun i => lq.isPrefixOf (ls.drop i))

/-- C8 counterexample: a store holding one icon named "star" with an empty
search-term list.  The query `"["` is a substring of neither the name nor
any search term (there are none), yet `searchIcons` returns the record,
because the SQL `LIKE` runs against the serialized JSON text `"[]"` of the
search-term column. -/
theorem c8_counterexample :
    searchIcons (insertIcon initDatabase
        ⟨"star", "solid", "<p/>", JsNum.num 1, JsNum.num 1, "0 0 1 1", "f3", []⟩)
      "[" none =
      [⟨"star", "solid", "<p/>", JsNum.num 1, JsNum.num 1, "0 0 1 1", "f3", []⟩] ∧
    ciSubstring "[" "star" = false ∧
    likeContainsQ "[" "[]" = true :=
  ⟨by decide, by decide, by decide⟩

/-- C8 (amended): `searchIcons` returns exactly the stored records whose
name or whose JSON-serialized search-term text matches the SQL pattern
`LIKE '%query%'` (ASCII-case-insensitive, `%`/`_` in the query acting as
wildcards), restricted to the given styles when a non-empty style list is
supplied, ordered by `(name, style)`. -/
theorem c8_search_characterization (db : Db) (q : String) (styles : Option (List String)) :
    (∀ d, d ∈ searchIcons db q styles ↔
      ∃ r, r ∈ db.rows ∧ rowRecord r = d ∧
        (likeContainsQ q r.name = true ∨ likeContainsQ q r.searchTerms = true) ∧
        (match styles with
         | some ss => ss = [] ∨ r.style ∈ ss
         | none => True)) ∧
    (searchIcons db q styles).Pairwise (fun a b =>
      a.name < b.name ∨ (a.name = b.name ∧ a.style ≤ b.style)) := by
  constructor
  · intro d
    rw [searchIcons, List.mem_map]
    constructor
    · rintro ⟨r, hr, rfl⟩
      rw [(List.perm_insertionSort nameStyleLE _).mem_iff, List.mem_filter] at hr
      obtain ⟨hmem, hok⟩ := hr
      rw [Bool.and_eq_true, Bool.or_eq_true] at hok
      refine ⟨r, hmem, rfl, hok.1, ?_⟩
      cases styles with
      | none => trivial
      | some ss =>
        have h2 : (if ss.isEmpty = true then true else ss.contains r.style) = true := hok.2
        by_cases hss : ss.isEmpty = true
        · left
          exact List.isEmpty_iff.mp hss
        · right
          rw [if_neg hss] at h2
          exact List.elem_iff.mp h2
    · rintro ⟨r, hmem, rfl, hlike, hstyle⟩
      refine ⟨r, ?_, rfl⟩
      rw [(List.perm_insertionSort nameStyleLE _).mem_iff, List.mem_filter]
      refine ⟨hmem, ?_⟩
      rw [Bool.and_eq_true, Bool.or_eq_true]
      refine ⟨hlike, ?_⟩
      cases styles with
      | none => rfl
      | some ss =>
        rcases hstyle with h | h
        · subst h
          rfl
        · by_cases hss : ss.isEmpty = true
          · rw [List.isEmpty_iff.mp hss] at h
            simp at h
          · show (if ss.isEmpty = true then true else ss.contains r.style) = true
            rw [if_neg hss]
            exact List.elem_iff.mpr h
  · rw [searchIcons, List.pairwise_map]
    exact List.sorted_insertionSort nameStyleLE _

theorem lookup_append_single {β : Type} (l : List (String × β)) (key k : String) (v : β) :
    List.lookup k (l ++ [(key, v)]) =
      match List.lookup k l with
      | some x => some x
      | none => if k = key then some v else none := by
  induction l with
  | nil =>
    show List.lookup k [(key, v)] = if k = key then some v else none
    by_cases hk : k = key
    · rw [List.lookup_cons, show (k == key) = true from beq_iff_eq.mpr hk, if_pos hk]
    · rw [List.lookup_cons, show (k == key) = false from beq_eq_false_iff_ne.mpr hk, if_neg hk]
      rfl
  | cons p l ih =>
    obtain ⟨pk, pv⟩ := p
    rw [List.cons_append, List.lookup_cons, List.lookup_cons]
    by_cases h : k = pk
    · rw [show (k == pk) = true from beq_iff_eq.mpr h]
    · rw [show (k == pk) = false from beq_eq_false_iff_ne.mpr h]
      exact ih

theorem lookup_map_update {β : Type} (l : List (String × β)) (key : String) (v : β)
    (h : (List.lookup key l).isSome = true) :
    List.lookup key (l.map (fun p => if p.1 = key then (key, v) else p)) = some v := by
  induction l with
  | nil => simp [List.lookup] at h
  | cons p l ih =>
    obtain ⟨pk, pv⟩ := p
    rw [List.map_cons]
    by_cases hp : pk = key
    · rw [show (if (pk, pv).1 = key then (key, v) else (pk, pv)) = (key, v) from by simp [hp]]
      rw [List.lookup_cons, show (key == key) = true from beq_iff_eq.mpr rfl]
    · rw [show (if (pk, pv).1 = key then (key, v) else (pk, pv)) = (pk, pv) from by simp [hp]]
      have hk : (key == pk) = false := beq_eq_false_iff_ne.mpr (fun hc => hp hc.symm)
      rw [List.lookup_cons, hk]
      apply ih
      rw [List.lookup_cons, hk] at h
      exact h

theorem lookup_map_update_ne {β : Type} (l : List (String × β)) (key k : String) (v : β)
    (hk : k ≠ key) :
    List.lookup k (l.map (fun p => if p.1 = key then (key, v) else p)) = List.lookup k l := by
  induction l with
  | nil => rfl
  | cons p l ih =>
    obtain ⟨pk, pv⟩ := p
    rw [List.map_cons]
    by_cases hp : pk = key
    · rw [show (if (pk, pv).1 = key then (key, v) else (pk, pv)) = (key, v) from by simp [hp]]
      rw [List.lookup_cons, List.lookup_cons,
        show (k == key) = false from beq_eq_false_iff_ne.mpr hk,
        show (k == pk) = false from beq_eq_false_iff_ne.mpr (hp ▸ hk)]
      exact ih
    · rw [show (if (pk, pv).1 = key then (key, v) else (pk, pv)) = (pk, pv) from by simp [hp]]
      rw [List.lookup_cons, List.lookup_cons]
      by_cases h : k = pk
      · rw [show (k == pk) = true from beq_iff_eq.mpr h]
      · rw [show (k == pk) = false from beq_eq_false_iff_ne.mpr h]
        exact ih

theorem lookup_assocSet (l : List (String × StyleIconSet)) (key k : String) (v : StyleIconSet) :
    List.lookup k (assocSet l key v) = if k = key then some v else List.lookup k l := by
  unfold assocSet
  by_cases h : (List.lookup key l).isSome = true
  · rw [if_pos h]
    by_cases hk : k = key
    · subst hk
      rw [if_pos rfl]
      exact lookup_map_update l k v h
    · rw [if_neg hk]
      exact lookup_map_update_ne l key k v hk
  · rw [if_neg h, lookup_append_single]
    cases hl : List.lookup k l with
    | some x =>
      by_cases hk : k = key
      · subst hk
        rw [hl] at h
        simp at h
      · simp [hk]
    | none => rfl

theorem genFold_total (db : Db) (config : KitConfig) (styles : List String) :
    ∀ acc, (styles.foldl (genStep db config) acc).2 =
      acc.2 + (styles.map (fun s => (getIconsByStyle db s).length)).sum := by
  induction styles with
  | nil =>
    intro acc
    simp
  | cons t rest ih =>
    intro acc
    rw [List.foldl_cons, ih]
    by_cases h : (getIconsByStyle db t).length = 0
    · simp [genStep, h]
    · simp only [genStep, if_neg h, List.map_cons, List.sum_cons]
      omega

theorem genFold_lookup (db : Db) (config : KitConfig) (styles : List String) (s : String) :
    ∀ acc, styles.Nodup →
      List.lookup s (styles.foldl (genStep db config) acc).1 =
        (if s ∈ styles ∧ (getIconsByStyle db s).length ≠ 0
         then some (mkStyleSet db config s)
         else List.lookup s acc.1) := by
  induction styles with
  | nil =>
    intro acc _
    simp
  | cons t rest ih =>
    intro acc hnd
    obtain ⟨hnotin, hnd'⟩ := List.nodup_cons.mp hnd
    rw [List.foldl_cons, ih (genStep db config acc t) hnd']
    by_cases hin : s ∈ rest ∧ (getIconsByStyle db s).length ≠ 0
    · rw [if_pos hin, if_pos ⟨List.mem_cons_of_mem t hin.1, hin.2⟩]
    · rw [if_neg hin]
      by_cases hst : s = t
      · subst hst
        by_cases hcnt : (getIconsByStyle db s).length = 0
        · rw [if_neg (fun hc => hc.2 hcnt)]
          show List.lookup s (if (getIconsByStyle db s).length = 0 then acc
            else (assocSet acc.1 s (mkStyleSet db config s),
              acc.2 + (getIconsByStyle db s).length)).1 = _
          rw [if_pos hcnt]
        · rw [if_pos ⟨List.mem_cons_self s rest, hcnt⟩]
          show List.lookup s (if (getIconsByStyle db s).length = 0 then acc
            else (assocSet acc.1 s (mkStyleSet db config s),
              acc.2 + (getIconsByStyle db s).length)).1 = _
          rw [if_neg hcnt]
          show List.lookup s (assocSet acc.1 s (mkStyleSet db config s)) = _
          rw [lookup_assocSet, if_pos rfl]
      · have hmem : ¬(s ∈ t :: rest ∧ (getIconsByStyle db s).length ≠ 0) := by
          rintro ⟨hm, hc⟩
          rcases List.mem_cons.mp hm with h | h
          · exact hst h
          · exact hin ⟨h, hc⟩
        rw [if_neg hmem]
        show List.lookup s (if (getIconsByStyle db t).length = 0 then acc
          else (assocSet acc.1 t (mkStyleSet db config t),
            acc.2 + (getIconsByStyle db t).length)).1 = _
        by_cases hcnt : (getIconsByStyle db t).length = 0
        · rw [if_pos hcnt]
        · rw [if_neg hcnt]
          show List.lookup s (assocSet acc.1 t (mkStyleSet db config t)) = _
          rw [lookup_assocSet, if_neg hst]

/-- C9: for each selected style with at least one stored record, the export
assembler emits a `StyleIconSet` whose prefix is `{base-prefix}-{style}`,
whose `info.total` is that style's record count, and whose icons map each
record to its geometry with zeroed offsets and no flips; selected styles
with zero records are omitted without error, and the returned total is the
sum of the record counts across the selected styles. -/
theorem c9_export_assembler (db : Db) (config : KitConfig)
    (hnd : config.selectedStyles.Nodup) :
    (generatePackage db config).2 =
      (config.selectedStyles.map (fun s => (getIconsByStyle db s).length)).sum ∧
    (∀ s ∈ config.selectedStyles,
      (getIconsByStyle db s = [] →
        List.lookup s (generatePackage db config).1 = none) ∧
      (getIconsByStyle db s ≠ [] →
        List.lookup s (generatePackage db config).1 = some (mkStyleSet db config s))) ∧
    (∀ s set, List.lookup s (generatePackage db config).1 = some set →
      s ∈ config.selectedStyles ∧ set = mkStyleSet db config s) ∧
    (∀ s, (mkStyleSet db config s).pfx = config.pfx ++ "-" ++ s ∧
      (mkStyleSet db config s).info.total = (getIconsByStyle db s).length ∧
      (mkStyleSet db config s).icons =
        (getIconsByStyle db s).map (fun i => (i.name, mkExportIcon i))) := by
  refine ⟨?_, ?_, ?_, fun s => ⟨rfl, rfl, rfl⟩⟩
  · have h := genFold_total db config config.selectedStyles ([], 0)
    simpa [generatePackage] using h
  · intro s hs
    have hl := genFold_lookup db config config.selectedStyles s ([], 0) hnd
    constructor
    · intro hempty
      rw [generatePackage, hl, if_neg (fun hc => hc.2 (by rw [hempty]; rfl))]
      rfl
    · intro hne
      rw [generatePackage, hl,
        if_pos ⟨hs, fun hlen => hne (List.length_eq_zero.mp hlen)⟩]
  · intro s set hset
    have hl := genFold_lookup db config config.selectedStyles s ([], 0) hnd
    rw [generatePackage, hl] at hset
    by_cases hc : s ∈ config.selectedStyles ∧ (getIconsByStyle db s).length ≠ 0
    · rw [if_pos hc] at hset
      exact ⟨hc.1, (Option.some.inj hset).symm⟩
    · rw [if_neg hc] at hset
      simp [List.lookup] at hset

/-- C9 witness: the spec's Example 4 — styles `["solid", "brands"]` selected
with only "solid" populated: one emitted set, "brands" omitted, total 1. -/
theorem c9_witness :
    (generatePackage (insertIcon initDatabase
        ⟨"star", "solid", "<p/>", JsNum.num 1, JsNum.num 1, "0 0 1 1", "f3", []⟩)
      ⟨"pkg", "1.0.0", "d", "FA Pro", "fa-pro", ["solid", "brands"]⟩).2 = 1 ∧
    List.lookup "brands" (generatePackage (insertIcon initDatabase
        ⟨"star", "solid", "<p/>", JsNum.num 1, JsNum.num 1, "0 0 1 1", "f3", []⟩)
      ⟨"pkg", "1.0.0", "d", "FA Pro", "fa-pro", ["solid", "brands"]⟩).1 = none ∧
    List.lookup "solid" (generatePackage (insertIcon initDatabase
        ⟨"star", "solid", "<p/>", JsNum.num 1, JsNum.num 1, "0 0 1 1", "f3", []⟩)
      ⟨"pkg", "1.0.0", "d", "FA Pro", "fa-pro", ["solid", "brands"]⟩).1 =
      some (mkStyleSet (insertIcon initDatabase
        ⟨"star", "solid", "<p/>", JsNum.num 1, JsNum.num 1, "0 0 1 1", "f3", []⟩)
        ⟨"pkg", "1.0.0", "d", "FA Pro", "fa-pro", ["solid", "brands"]⟩ "solid") := by
  have h := c9_export_assembler (insertIcon initDatabase
      ⟨"star", "solid", "<p/>", JsNum.num 1, JsNum.num 1, "0 0 1 1", "f3", []⟩)
    ⟨"pkg", "1.0.0", "d", "FA Pro", "fa-pro", ["solid", "brands"]⟩ (by decide)
  refine ⟨?_, ?_, ?_⟩
  · rw [h.1]
    decide
  · exact (h.2.1 "brands" (by decide)).1 (by decide)
  · exact (h.2.1 "solid" (by decide)).2 (by decide)
